import Mathlib

/-!
Verification of the pngme chunk codec.

Shallow embedding of the Rust sources:
  - src/chunk_type.rs : ChunkType, its validation and bit predicates
  - src/chunk.rs      : Chunk, Chunk::new, Chunk::as_bytes, TryFrom<&[u8]>
  - src/png.rs        : missing from the source tree; the Png container is
    modelled from the specification where needed.

Bytes are modelled as Nat values below 256; u32 values as Nat below 2^32,
with explicit reductions modulo 2^32 where the Rust code truncates.
-/

namespace Pngme

deriving instance DecidableEq for Except

/-- Fixed 4-byte array, the model of the Rust type [u8; 4]. -/
structure Bytes4 where
  b0 : Nat
  b1 : Nat
  b2 : Nat
  b3 : Nat
deriving DecidableEq, Repr

/-- List view of a 4-byte array, in index order. -/
def Bytes4.toList (b : Bytes4) : List Nat :=
  [b.b0, b.b1, b.b2, b.b3]

/-- Model of ChunkType from src/chunk_type.rs: a 4-byte PNG chunk type code. -/
structure ChunkType where
  bytes : Bytes4
deriving DecidableEq, Repr

/-- Model of ChunkType.is_valid_byte: must be in ASCII A-Z or a-z
(decimal 65-90 and 97-122). -/
def ChunkType.is_valid_byte (b : Nat) : Bool :=
  (65 ≤ b && b ≤ 90) || (97 ≤ b && b ≤ 122)

/-- List of the four bytes of a chunk type, the model of
ChunkType.bytes() viewed as a list. -/
def ChunkType.bytesList (t : ChunkType) : List Nat :=
  t.bytes.toList

/-- Model of ChunkTypeDecodingError from src/chunk_type.rs. -/
inductive ChunkTypeDecodingError where
  | BadByte (byte : Nat)
  | BadLength (len : Nat)
deriving DecidableEq, Repr

/-- Model of TryFrom<[u8; 4]> for ChunkType: scan the four bytes in index
order and fail with BadByte at the first byte that is not an ASCII letter. -/
def ChunkType.try_from (b : Bytes4) : Except ChunkTypeDecodingError ChunkType :=
  if ¬ChunkType.is_valid_byte b.b0 then .error (.BadByte b.b0)
  else if ¬ChunkType.is_valid_byte b.b1 then .error (.BadByte b.b1)
  else if ¬ChunkType.is_valid_byte b.b2 then .error (.BadByte b.b2)
  else if ¬ChunkType.is_valid_byte b.b3 then .error (.BadByte b.b3)
  else .ok ⟨b⟩

/-- Model of FromStr for ChunkType: a Rust string is modelled by its UTF-8
byte list. A string whose byte length is not 4 fails with BadLength carrying
the received size; otherwise the four bytes are scanned in order and the
first invalid byte fails with BadByte. -/
def ChunkType.from_str (s : List Nat) : Except ChunkTypeDecodingError ChunkType :=
  match s with
  | [a, b, c, d] =>
    if ¬ChunkType.is_valid_byte a then .error (.BadByte a)
    else if ¬ChunkType.is_valid_byte b then .error (.BadByte b)
    else if ¬ChunkType.is_valid_byte c then .error (.BadByte c)
    else if ¬ChunkType.is_valid_byte d then .error (.BadByte d)
    else .ok ⟨⟨a, b, c, d⟩⟩
  | _ => .error (.BadLength s.length)

/-- UTF-8 encoding of char::from(b) for a byte b, as written by the Display
impl of ChunkType: code points below 128 take one byte, the rest (U+0080 to
U+00FF) take two. -/
def charToUtf8 (b : Nat) : List Nat :=
  if b < 128 then [b] else [192 ||| (b >>> 6), 128 ||| (b &&& 63)]

/-- Model of Display for ChunkType (to_string): the UTF-8 bytes of the four
bytes rendered as chars. -/
def ChunkType.to_string (t : ChunkType) : List Nat :=
  (t.bytesList).flatMap charToUtf8

/-- Model of ChunkType.bit_is_zero: is the nth bit (from the right, counting
from 0) of the byte zero? The mask 1 << n is computed in u8. -/
def ChunkType.bit_is_zero (bit : Nat) (n : Nat) : Bool :=
  bit &&& ((1 <<< n) % 256) == 0

/-- Model of ChunkType.is_critical: the ancillary bit, bit 5 of byte 0, is 0. -/
def ChunkType.is_critical (t : ChunkType) : Bool :=
  ChunkType.bit_is_zero t.bytes.b0 5

/-- Model of ChunkType.is_public: the private bit, bit 5 of byte 1, is 0. -/
def ChunkType.is_public (t : ChunkType) : Bool :=
  ChunkType.bit_is_zero t.bytes.b1 5

/-- Model of ChunkType.is_reserved_bit_valid: bit 5 of byte 2 is 0. -/
def ChunkType.is_reserved_bit_valid (t : ChunkType) : Bool :=
  ChunkType.bit_is_zero t.bytes.b2 5

/-- Model of ChunkType.is_safe_to_copy: bit 5 of byte 3 is 1. -/
def ChunkType.is_safe_to_copy (t : ChunkType) : Bool :=
  !ChunkType.bit_is_zero t.bytes.b3 5

/-- Model of ChunkType.is_valid. -/
def ChunkType.is_valid (t : ChunkType) : Bool :=
  t.is_reserved_bit_valid

/-- A ChunkType value satisfying the construction invariant of the Rust
type: all four bytes are ASCII letters. Every ChunkType reachable through
the public Rust interface satisfies this, since the field is private and
both constructors validate. -/
def ChunkType.IsValid (t : ChunkType) : Prop :=
  ChunkType.is_valid_byte t.bytes.b0 = true ∧
  ChunkType.is_valid_byte t.bytes.b1 = true ∧
  ChunkType.is_valid_byte t.bytes.b2 = true ∧
  ChunkType.is_valid_byte t.bytes.b3 = true

instance (t : ChunkType) : Decidable t.IsValid := by
  unfold ChunkType.IsValid
  infer_instance

/-! CRC-32/IEEE, the checksum computed by crc::crc32::checksum_ieee of the
crc crate: reflected polynomial 0xEDB88320, initial value 0xFFFFFFFF, final
xor 0xFFFFFFFF, processed bytewise. -/

/-- Reflected CRC-32/IEEE polynomial. -/
def CRC_POLY : Nat := 0xEDB88320

/-- One shift step of the bytewise CRC-32 algorithm. -/
def crc32Step (c : Nat) : Nat :=
  if c % 2 = 1 then (c >>> 1) ^^^ CRC_POLY else c >>> 1

/-- Iterate the CRC-32 shift step n times. -/
def crc32Steps : Nat → Nat → Nat
  | 0, c => c
  | n + 1, c => crc32Steps n (crc32Step c)

/-- Feed one byte into the CRC-32 state. -/
def crc32Update (crc b : Nat) : Nat :=
  crc32Steps 8 (crc ^^^ b)

/-- Model of crc::crc32::checksum_ieee on a byte list. -/
def checksum_ieee (data : List Nat) : Nat :=
  (data.foldl crc32Update 0xFFFFFFFF) ^^^ 0xFFFFFFFF

/-- Maximum chunk data length, the model of MAXIMUM_LENGTH in src/chunk.rs:
(1 << 31) - 1. -/
def MAXIMUM_LENGTH : Nat := (1 <<< 31) - 1

/-- Model of Chunk from src/chunk.rs: length, chunk type, data, crc. -/
structure Chunk where
  length : Nat
  chunk_type : ChunkType
  chunk_data : List Nat
  crc : Nat
deriving DecidableEq, Repr

/-- Model of Chunk::new: compute the crc over type bytes followed by data,
store the data length truncated to u32 (the Rust cast data.len() as u32). -/
def Chunk.new (chunk_type : ChunkType) (chunk_data : List Nat) : Chunk :=
  let crc := checksum_ieee (chunk_type.bytesList ++ chunk_data)
  { length := chunk_data.length % 2 ^ 32
    chunk_type := chunk_type
    chunk_data := chunk_data
    crc := crc }

/-- Big-endian bytes of a u32, the model of u32::to_be_bytes. -/
def u32_to_be_bytes (n : Nat) : List Nat :=
  [n / 2 ^ 24 % 256, n / 2 ^ 16 % 256, n / 2 ^ 8 % 256, n % 256]

/-- Value of four big-endian bytes, the model of u32::from_be_bytes. -/
def u32_from_be_bytes (b0 b1 b2 b3 : Nat) : Nat :=
  b0 * 2 ^ 24 + b1 * 2 ^ 16 + b2 * 2 ^ 8 + b3

/-- Model of Chunk::as_bytes: length (big-endian), type bytes, data bytes,
crc (big-endian), concatenated. -/
def Chunk.as_bytes (c : Chunk) : List Nat :=
  u32_to_be_bytes c.length ++ c.chunk_type.bytesList ++ c.chunk_data ++
    u32_to_be_bytes c.crc

/-- Model of the failure cases of TryFrom<&[u8]> for Chunk. BufferTooShort
is the propagated read_exact error; the others carry the values that the
Rust error message strings carry. -/
inductive ChunkError where
  | BufferTooShort
  | TooLong (length : Nat)
  | BadChunkType (e : ChunkTypeDecodingError)
  | LengthMismatch (actual : Nat) (expected : Nat)
  | BadCrc (received : Nat) (expected : Nat)
deriving DecidableEq, Repr

/-- Model of TryFrom<&[u8]> for Chunk, returning also the bytes the
BufReader left unread. The reader consumes, in order: a 4-byte big-endian
length (rejected above MAXIMUM_LENGTH), a 4-byte chunk type (validated),
length data bytes, and a 4-byte big-endian crc compared against the
checksum recomputed over type bytes and data. Each read_exact that runs
out of input fails with the propagated error (BufferTooShort). -/
def Chunk.try_from_consume (bytes : List Nat) :
    Except ChunkError (Chunk × List Nat) :=
  match bytes with
  | l0 :: l1 :: l2 :: l3 :: r1 =>
    let length := u32_from_be_bytes l0 l1 l2 l3
    if length > MAXIMUM_LENGTH then .error (.TooLong length)
    else
      match r1 with
      | t0 :: t1 :: t2 :: t3 :: r2 =>
        match ChunkType.try_from ⟨t0, t1, t2, t3⟩ with
        | .error e => .error (.BadChunkType e)
        | .ok chunk_type =>
          if length ≤ r2.length then
            let chunk_data := r2.take length
            let r3 := r2.drop length
            if chunk_data.length ≠ length then
              .error (.LengthMismatch chunk_data.length length)
            else
              match r3 with
              | c0 :: c1 :: c2 :: c3 :: r4 =>
                let provided_crc := u32_from_be_bytes c0 c1 c2 c3
                let true_crc :=
                  checksum_ieee (chunk_type.bytesList ++ chunk_data)
                if provided_crc ≠ true_crc then
                  .error (.BadCrc provided_crc true_crc)
                else
                  .ok ({ length := length
                         chunk_type := chunk_type
                         chunk_data := chunk_data
                         crc := true_crc }, r4)
              | _ => .error .BufferTooShort
          else .error .BufferTooShort
      | _ => .error .BufferTooShort
  | _ => .error .BufferTooShort

/-- Model of TryFrom<&[u8]> for Chunk: the decoded chunk, with any unread
trailing bytes of the buffer ignored, as the BufReader ignores them. -/
def Chunk.try_from (bytes : List Nat) : Except ChunkError Chunk :=
  Except.map Prod.fst (Chunk.try_from_consume bytes)

/-- The construction invariant of a Chunk reachable through the public Rust
interface: the stored length equals the data length and stays within the
PNG bound, the stored crc is the checksum over type bytes and data, the
type is a validly constructed ChunkType, and the data consists of bytes. -/
def Chunk.WellFormed (c : Chunk) : Prop :=
  c.length = c.chunk_data.length ∧
  c.chunk_data.length ≤ MAXIMUM_LENGTH ∧
  c.crc = checksum_ieee (c.chunk_type.bytesList ++ c.chunk_data) ∧
  c.chunk_type.IsValid ∧
  ∀ b ∈ c.chunk_data, b < 256

instance (c : Chunk) : Decidable c.WellFormed := by
  unfold Chunk.WellFormed
  infer_instance

/-! The Png container. The module png is declared in src/lib.rs and
src/main.rs but the file src/png.rs is not in the source tree, so the
container is modelled from the specification. -/

/-- Modelled from the spec: the fixed 8-byte PNG signature 89 50 4E 47 0D
0A 1A 0A (src/png.rs is missing from the source tree). -/
def PNG_SIGNATURE : List Nat := [0x89, 0x50, 0x4E, 0x47, 0x0D, 0x0A, 0x1A, 0x0A]

/-- Modelled from the spec: a Png is the ordered sequence of its chunks
(src/png.rs is missing from the source tree). -/
structure Png where
  chunks : List Chunk
deriving DecidableEq, Repr

/-- Modelled from the spec: error cases of Png decoding (src/png.rs is
missing from the source tree). -/
inductive PngError where
  | BadSignature
  | BadChunk (e : ChunkError)
deriving DecidableEq, Repr

/-- Modelled from the spec: Png::as_bytes is the signature followed by each
chunk encoded in stored order (src/png.rs is missing from the source
tree). -/
def Png.as_bytes (p : Png) : List Nat :=
  PNG_SIGNATURE ++ (p.chunks.map Chunk.as_bytes).flatten

/-- Modelled from the spec: repeatedly decode chunks until the buffer is
exhausted, propagating any chunk failure. The fuel argument only bounds the
recursion; a chunk consumes at least twelve bytes, so fuel equal to the
buffer length always suffices. -/
def Png.decodeChunks : Nat → List Nat → Except ChunkError (List Chunk)
  | 0, bytes => if bytes = [] then .ok [] else .error .BufferTooShort
  | fuel + 1, bytes =>
    if bytes = [] then .ok []
    else
      match Chunk.try_from_consume bytes with
      | .error e => .error e
      | .ok (c, r) =>
        match Png.decodeChunks fuel r with
        | .error e => .error e
        | .ok cs => .ok (c :: cs)

/-- Modelled from the spec: TryFrom<&[u8]> for Png verifies that the first
eight bytes equal the fixed signature (failing with BadSignature otherwise,
also when fewer than eight bytes are present) and then decodes chunks from
the remaining bytes until they are exhausted (src/png.rs is missing from
the source tree). -/
def Png.try_from (bytes : List Nat) : Except PngError Png :=
  if bytes.take 8 = PNG_SIGNATURE then
    match Png.decodeChunks (bytes.drop 8).length (bytes.drop 8) with
    | .error e => .error (.BadChunk e)
    | .ok cs => .ok ⟨cs⟩
  else .error .BadSignature

/-! Helper definitions used to state the claims. -/

/-- Flip bit j of the byte at index i of a byte list (lists shorter than i
are unchanged). -/
def flipBitAt (l : List Nat) (i j : Nat) : List Nat :=
  l.set i ((l.getD i 0) ^^^ (1 <<< j))

/-- Observation: did chunk decoding fail with the crc mismatch error? -/
def isCrcMismatch : Except ChunkError Chunk → Bool
  | .error (.BadCrc _ _) => true
  | _ => false

/-- Observation: did chunk decoding fail with the defensive data length
mismatch error? -/
def isLengthMismatch : Except ChunkError Chunk → Bool
  | .error (.LengthMismatch _ _) => true
  | _ => false

/-- The first byte of a 4-byte array, in index order, that is not an ASCII
letter, stated from the words of the spec. -/
def specFirstInvalidByte (b : Bytes4) : Option Nat :=
  if ¬ChunkType.is_valid_byte b.b0 then some b.b0
  else if ¬ChunkType.is_valid_byte b.b1 then some b.b1
  else if ¬ChunkType.is_valid_byte b.b2 then some b.b2
  else if ¬ChunkType.is_valid_byte b.b3 then some b.b3
  else none

/-! Projection lemmas for Chunk.new, stated over symbolic data so that no
concrete list is ever evaluated when they are applied. -/

theorem Chunk.new_length (t : ChunkType) (d : List Nat) :
    (Chunk.new t d).length = d.length % 2 ^ 32 := rfl

theorem Chunk.new_chunk_type (t : ChunkType) (d : List Nat) :
    (Chunk.new t d).chunk_type = t := rfl

theorem Chunk.new_chunk_data (t : ChunkType) (d : List Nat) :
    (Chunk.new t d).chunk_data = d := rfl

theorem Chunk.new_crc (t : ChunkType) (d : List Nat) :
    (Chunk.new t d).crc = checksum_ieee (t.bytesList ++ d) := rfl

theorem Chunk.as_bytes_def (c : Chunk) :
    c.as_bytes = u32_to_be_bytes c.length ++ c.chunk_type.bytesList ++
      c.chunk_data ++ u32_to_be_bytes c.crc := rfl

/-! Arithmetic facts about the CRC-32 state machine. The key result is
that feeding two different states, or two streams differing in one byte,
through the machine yields different raw states, hence different
checksums. -/

theorem crc32Step_lt {c : Nat} (h : c < 2 ^ 32) : crc32Step c < 2 ^ 32 := by
  unfold crc32Step
  rw [Nat.shiftRight_one]
  split
  · exact Nat.xor_lt_two_pow (by omega) (by norm_num [CRC_POLY])
  · omega

theorem xor_poly_ge {x : Nat} (h : x < 2 ^ 31) : 2 ^ 31 ≤ x ^^^ CRC_POLY := by
  apply Nat.testBit_implies_ge (i := 31)
  rw [Nat.testBit_xor, Nat.testBit_lt_two_pow h]
  decide

theorem crc32Step_inj {a b : Nat} (ha : a < 2 ^ 32) (hb : b < 2 ^ 32)
    (h : crc32Step a = crc32Step b) : a = b := by
  unfold crc32Step at h
  rw [Nat.shiftRight_one, Nat.shiftRight_one] at h
  by_cases h1 : a % 2 = 1 <;> by_cases h2 : b % 2 = 1 <;>
    simp only [h1, h2, if_true, if_false, if_pos, if_neg, reduceIte] at h
  · have hcancel : a / 2 = b / 2 := by
      have := congrArg (· ^^^ CRC_POLY) h
      simpa [Nat.xor_cancel_right] using this
    omega
  · exfalso
    have hx : 2 ^ 31 ≤ a / 2 ^^^ CRC_POLY := xor_poly_ge (by omega)
    rw [h] at hx
    omega
  · exfalso
    have hx : 2 ^ 31 ≤ b / 2 ^^^ CRC_POLY := xor_poly_ge (by omega)
    rw [← h] at hx
    omega
  · omega

theorem crc32Steps_lt {n c : Nat} (h : c < 2 ^ 32) : crc32Steps n c < 2 ^ 32 := by
  induction n generalizing c with
  | zero => exact h
  | succ n ih => exact ih (crc32Step_lt h)

theorem crc32Steps_inj {n a b : Nat} (ha : a < 2 ^ 32) (hb : b < 2 ^ 32)
    (h : crc32Steps n a = crc32Steps n b) : a = b := by
  induction n generalizing a b with
  | zero => exact h
  | succ n ih =>
    exact crc32Step_inj ha hb (ih (crc32Step_lt ha) (crc32Step_lt hb) h)

theorem crc32Update_lt {c b : Nat} (hc : c < 2 ^ 32) (hb : b < 2 ^ 32) :
    crc32Update c b < 2 ^ 32 :=
  crc32Steps_lt (Nat.xor_lt_two_pow hc hb)

theorem crc32Update_inj_state {c c2 b : Nat} (hc : c < 2 ^ 32) (hc2 : c2 < 2 ^ 32)
    (hb : b < 2 ^ 32) (h : crc32Update c b = crc32Update c2 b) : c = c2 := by
  have hx : c ^^^ b = c2 ^^^ b :=
    crc32Steps_inj (Nat.xor_lt_two_pow hc hb) (Nat.xor_lt_two_pow hc2 hb) h
  have := congrArg (· ^^^ b) hx
  simpa [Nat.xor_cancel_right] using this

theorem crc32Update_inj_byte {c b b2 : Nat} (hc : c < 2 ^ 32) (hb : b < 2 ^ 32)
    (hb2 : b2 < 2 ^ 32) (h : crc32Update c b = crc32Update c b2) : b = b2 := by
  have hx : c ^^^ b = c ^^^ b2 :=
    crc32Steps_inj (Nat.xor_lt_two_pow hc hb) (Nat.xor_lt_two_pow hc hb2) h
  have := congrArg (c ^^^ ·) hx
  simpa [Nat.xor_cancel_left] using this

theorem foldl_crc32Update_lt {l : List Nat} {s : Nat} (hs : s < 2 ^ 32)
    (hl : ∀ b ∈ l, b < 2 ^ 32) : l.foldl crc32Update s < 2 ^ 32 := by
  induction l generalizing s with
  | nil => exact hs
  | cons x xs ih =>
    simp only [List.foldl_cons]
    exact ih (crc32Update_lt hs (hl x (by simp)))
      (fun b hb => hl b (by simp [hb]))

theorem foldl_crc32Update_inj {l : List Nat} {s1 s2 : Nat} (h1 : s1 < 2 ^ 32)
    (h2 : s2 < 2 ^ 32) (hl : ∀ b ∈ l, b < 2 ^ 32) (hne : s1 ≠ s2) :
    l.foldl crc32Update s1 ≠ l.foldl crc32Update s2 := by
  induction l generalizing s1 s2 with
  | nil => exact hne
  | cons x xs ih =>
    simp only [List.foldl_cons]
    have hx : x < 2 ^ 32 := hl x (by simp)
    apply ih (crc32Update_lt h1 hx) (crc32Update_lt h2 hx)
      (fun b hb => hl b (by simp [hb]))
    intro heq
    exact hne (crc32Update_inj_state h1 h2 hx heq)

/-- Two byte streams that differ in exactly one byte have different
CRC-32/IEEE checksums. -/
theorem checksum_ieee_ne_of_byte_ne {pre suf : List Nat} {b b2 : Nat}
    (hpre : ∀ x ∈ pre, x < 2 ^ 32) (hsuf : ∀ x ∈ suf, x < 2 ^ 32)
    (hb : b < 2 ^ 32) (hb2 : b2 < 2 ^ 32) (hne : b ≠ b2) :
    checksum_ieee (pre ++ b :: suf) ≠ checksum_ieee (pre ++ b2 :: suf) := by
  unfold checksum_ieee
  intro h
  have h2 : (pre ++ b :: suf).foldl crc32Update 0xFFFFFFFF =
      (pre ++ b2 :: suf).foldl crc32Update 0xFFFFFFFF := by
    have := congrArg (· ^^^ 0xFFFFFFFF) h
    simpa [Nat.xor_cancel_right] using this
  rw [List.foldl_append, List.foldl_append] at h2
  simp only [List.foldl_cons] at h2
  have hs : pre.foldl crc32Update 0xFFFFFFFF < 2 ^ 32 :=
    foldl_crc32Update_lt (by norm_num) hpre
  refine foldl_crc32Update_inj (crc32Update_lt hs hb) (crc32Update_lt hs hb2)
    hsuf ?_ h2
  intro heq
  exact hne (crc32Update_inj_byte hs hb hb2 heq)

/-- The checksum is always a u32 value. -/
theorem checksum_ieee_lt (data : List Nat) (h : ∀ x ∈ data, x < 2 ^ 32) :
    checksum_ieee data < 2 ^ 32 := by
  unfold checksum_ieee
  exact Nat.xor_lt_two_pow (foldl_crc32Update_lt (by norm_num) h) (by norm_num)

/-! Byte-level facts about the big-endian u32 codec and chunk types. -/

theorem u32_from_to_be {n : Nat} (h : n < 2 ^ 32) :
    u32_from_be_bytes (n / 2 ^ 24 % 256) (n / 2 ^ 16 % 256) (n / 2 ^ 8 % 256)
      (n % 256) = n := by
  unfold u32_from_be_bytes
  omega

theorem u32_to_be_bytes_lt (n : Nat) : ∀ x ∈ u32_to_be_bytes n, x < 256 := by
  unfold u32_to_be_bytes
  intro x hx
  simp only [List.mem_cons, List.not_mem_nil, or_false] at hx
  rcases hx with h | h | h | h <;> omega

theorem u32_from_be_bytes_inj {a b c d a2 b2 c2 d2 : Nat}
    (ha : a < 256) (hb : b < 256) (hc : c < 256) (hd : d < 256)
    (ha2 : a2 < 256) (hb2 : b2 < 256) (hc2 : c2 < 256) (hd2 : d2 < 256)
    (h : u32_from_be_bytes a b c d = u32_from_be_bytes a2 b2 c2 d2) :
    a = a2 ∧ b = b2 ∧ c = c2 ∧ d = d2 := by
  unfold u32_from_be_bytes at h
  omega

theorem is_valid_byte_lt {b : Nat} (h : ChunkType.is_valid_byte b = true) :
    b < 256 := by
  simp only [ChunkType.is_valid_byte, Bool.or_eq_true, Bool.and_eq_true,
    decide_eq_true_eq] at h
  omega

/-- ChunkType decoding is described exactly by the first invalid byte. -/
theorem chunkType_try_from_eq_spec (b : Bytes4) :
    ChunkType.try_from b =
      match specFirstInvalidByte b with
      | some x => .error (.BadByte x)
      | none => .ok ⟨b⟩ := by
  unfold ChunkType.try_from specFirstInvalidByte
  by_cases h0 : ChunkType.is_valid_byte b.b0 <;>
    by_cases h1 : ChunkType.is_valid_byte b.b1 <;>
      by_cases h2 : ChunkType.is_valid_byte b.b2 <;>
        by_cases h3 : ChunkType.is_valid_byte b.b3 <;>
          simp [h0, h1, h2, h3]

/-- Master layout lemma: decoding a buffer laid out as a 4-byte big-endian
length, four type bytes, a data segment of exactly the declared length, four
crc bytes, and arbitrary trailing bytes, behaves as the source decoder
prescribes: length bound first, then type validation, then crc
comparison. -/
theorem try_from_consume_layout
    {n : Nat} (hn : n < 2 ^ 32) (a b c d : Nat) {data : List Nat}
    (hd : data.length = n) (c0 c1 c2 c3 : Nat) (rest : List Nat) :
    Chunk.try_from_consume (u32_to_be_bytes n ++ a :: b :: c :: d ::
        (data ++ c0 :: c1 :: c2 :: c3 :: rest)) =
      if n > MAXIMUM_LENGTH then .error (.TooLong n)
      else
        match specFirstInvalidByte ⟨a, b, c, d⟩ with
        | some x => .error (.BadChunkType (.BadByte x))
        | none =>
          if u32_from_be_bytes c0 c1 c2 c3 = checksum_ieee ([a, b, c, d] ++ data)
          then .ok ({ length := n, chunk_type := ⟨⟨a, b, c, d⟩⟩,
                      chunk_data := data,
                      crc := checksum_ieee ([a, b, c, d] ++ data) }, rest)
          else .error (.BadCrc (u32_from_be_bytes c0 c1 c2 c3)
                 (checksum_ieee ([a, b, c, d] ++ data))) := by
  simp only [u32_to_be_bytes, List.cons_append, List.nil_append]
  rw [Chunk.try_from_consume]
  rw [u32_from_to_be hn]
  by_cases hbound : n > MAXIMUM_LENGTH
  · simp [hbound]
  · simp only [hbound, if_false, reduceIte]
    rw [chunkType_try_from_eq_spec]
    rcases hspec : specFirstInvalidByte ⟨a, b, c, d⟩ with _ | x
    · simp only []
      have hlen : n ≤ (data ++ c0 :: c1 :: c2 :: c3 :: rest).length := by
        simp [hd]
      rw [if_pos hlen]
      rw [List.take_left' hd, List.drop_left' hd]
      simp only [hd, ne_eq, not_true_eq_false, if_neg, reduceIte]
      have hbytes : ChunkType.bytesList ⟨⟨a, b, c, d⟩⟩ = [a, b, c, d] := rfl
      rw [hbytes]
      by_cases hcrc : u32_from_be_bytes c0 c1 c2 c3 =
          checksum_ieee ([a, b, c, d] ++ data)
      · simp [hcrc]
      · simp [hcrc]
    · simp

/-- Valid chunk types have their four bytes below 256. -/
theorem bytesList_lt_of_valid {t : ChunkType} (h : t.IsValid) :
    ∀ x ∈ t.bytesList, x < 256 := by
  obtain ⟨h0, h1, h2, h3⟩ := h
  intro x hx
  simp only [ChunkType.bytesList, Bytes4.toList, List.mem_cons,
    List.not_mem_nil, or_false] at hx
  rcases hx with rfl | rfl | rfl | rfl
  · exact is_valid_byte_lt h0
  · exact is_valid_byte_lt h1
  · exact is_valid_byte_lt h2
  · exact is_valid_byte_lt h3

/-- Valid chunk types pass the byte scan. -/
theorem specFirstInvalidByte_of_valid {t : ChunkType} (h : t.IsValid) :
    specFirstInvalidByte t.bytes = none := by
  obtain ⟨h0, h1, h2, h3⟩ := h
  simp [specFirstInvalidByte, h0, h1, h2, h3]

/-- Chunks that hold the construction invariant decode back from their own
serialization, leaving the trailing bytes unread. -/
theorem try_from_consume_as_bytes {c : Chunk} (h : c.WellFormed)
    (rest : List Nat) :
    Chunk.try_from_consume (c.as_bytes ++ rest) = .ok (c, rest) := by
  obtain ⟨hlen, hbound, hcrc, htype, hdata⟩ := h
  have hn : c.length < 2 ^ 32 := by
    have : MAXIMUM_LENGTH < 2 ^ 32 := by decide
    omega
  have hcrclt : c.crc < 2 ^ 32 := by
    rw [hcrc]
    apply checksum_ieee_lt
    intro x hx
    rcases List.mem_append.mp hx with hx | hx
    · exact lt_trans (bytesList_lt_of_valid htype x hx) (by norm_num)
    · exact lt_trans (hdata x hx) (by norm_num)
  have hb : c.chunk_type.bytesList = [c.chunk_type.bytes.b0,
      c.chunk_type.bytes.b1, c.chunk_type.bytes.b2, c.chunk_type.bytes.b3] := rfl
  have hbuf : c.as_bytes ++ rest =
      u32_to_be_bytes c.length ++ c.chunk_type.bytes.b0 ::
        c.chunk_type.bytes.b1 :: c.chunk_type.bytes.b2 ::
        c.chunk_type.bytes.b3 ::
        (c.chunk_data ++ c.crc / 2 ^ 24 % 256 :: c.crc / 2 ^ 16 % 256 ::
          c.crc / 2 ^ 8 % 256 :: c.crc % 256 :: rest) := by
    simp [Chunk.as_bytes, hb, u32_to_be_bytes, List.append_assoc]
  rw [hbuf, try_from_consume_layout hn _ _ _ _ hlen.symm]
  rw [if_neg (by omega : ¬c.length > MAXIMUM_LENGTH)]
  have hspec : specFirstInvalidByte ⟨c.chunk_type.bytes.b0,
      c.chunk_type.bytes.b1, c.chunk_type.bytes.b2, c.chunk_type.bytes.b3⟩ =
      none := specFirstInvalidByte_of_valid htype
  rw [hspec]
  have h1 : u32_from_be_bytes (c.crc / 2 ^ 24 % 256) (c.crc / 2 ^ 16 % 256)
      (c.crc / 2 ^ 8 % 256) (c.crc % 256) = c.crc := u32_from_to_be hcrclt
  have h2 : checksum_ieee ([c.chunk_type.bytes.b0, c.chunk_type.bytes.b1,
      c.chunk_type.bytes.b2, c.chunk_type.bytes.b3] ++ c.chunk_data) =
      c.crc := by
    rw [← hb, ← hcrc]
  rw [h1, h2, if_pos rfl]

theorem as_bytes_length (c : Chunk) :
    c.as_bytes.length = 12 + c.chunk_data.length := by
  simp [Chunk.as_bytes, u32_to_be_bytes, ChunkType.bytesList, Bytes4.toList]
  omega

theorem as_bytes_ne_nil (c : Chunk) (r : List Nat) : c.as_bytes ++ r ≠ [] := by
  intro h
  have := congrArg List.length h
  simp [as_bytes_length] at this

theorem flatten_as_bytes_length (cs : List Chunk) :
    cs.length ≤ ((cs.map Chunk.as_bytes).flatten).length := by
  induction cs with
  | nil => simp
  | cons c cs ih =>
    simp only [List.map_cons, List.flatten_cons, List.length_append,
      List.length_cons]
    have := as_bytes_length c
    omega

/-- Decoding the concatenation of the serializations of well-formed chunks
returns exactly those chunks, for any sufficient fuel. -/
theorem decodeChunks_encode (cs : List Chunk) (h : ∀ c ∈ cs, c.WellFormed)
    (fuel : Nat) (hf : cs.length ≤ fuel) :
    Png.decodeChunks fuel ((cs.map Chunk.as_bytes).flatten) = .ok cs := by
  induction cs generalizing fuel with
  | nil => cases fuel <;> simp [Png.decodeChunks]
  | cons c cs ih =>
    cases fuel with
    | zero => simp at hf
    | succ f =>
      simp only [List.map_cons, List.flatten_cons]
      rw [Png.decodeChunks]
      rw [if_neg (as_bytes_ne_nil c _)]
      rw [try_from_consume_as_bytes (h c (by simp)) _]
      have hrec : Png.decodeChunks f ((cs.map Chunk.as_bytes).flatten) =
          .ok cs := by
        apply ih (fun x hx => h x (by simp [hx])) f
        simp only [List.length_cons] at hf
        omega
      simp [hrec]

/-- Valid type bytes are ASCII, so they render as single UTF-8 bytes. -/
theorem charToUtf8_of_valid {b : Nat} (h : ChunkType.is_valid_byte b = true) :
    charToUtf8 b = [b] := by
  have hb : b < 128 := by
    simp only [ChunkType.is_valid_byte, Bool.or_eq_true, Bool.and_eq_true,
      decide_eq_true_eq] at h
    omega
  unfold charToUtf8
  rw [if_pos hb]

/-- Rendering a valid chunk type yields exactly its four bytes. -/
theorem to_string_of_valid {t : ChunkType} (h : t.IsValid) :
    t.to_string = t.bytesList := by
  obtain ⟨h0, h1, h2, h3⟩ := h
  simp [ChunkType.to_string, ChunkType.bytesList, Bytes4.toList,
    charToUtf8_of_valid, h0, h1, h2, h3]

/-- Every chunk produced by a successful decode satisfies the stored-field
invariants: the crc is the recomputed checksum and the length matches the
data. -/
theorem try_from_consume_wf {bytes : List Nat} {c : Chunk} {r : List Nat}
    (h : Chunk.try_from_consume bytes = .ok (c, r)) :
    c.crc = checksum_ieee (c.chunk_type.bytesList ++ c.chunk_data) ∧
    c.length = c.chunk_data.length := by
  simp only [Chunk.try_from_consume] at h
  repeat split at h
  all_goals repeat split at h
  all_goals repeat split at h
  any_goals simp only [reduceCtorEq] at h
  rename_i r1 l0 l1 l2 l3 hTL rr t0 t1 t2 t3 r2 x ct heq hle hmm
  rcases hdrop : List.drop (u32_from_be_bytes l0 l1 l2 l3) r2 with
    _ | ⟨d0, _ | ⟨d1, _ | ⟨d2, _ | ⟨d3, r5⟩⟩⟩⟩ <;>
    rw [hdrop] at h
  all_goals try simp only [reduceCtorEq] at h
  all_goals try split at h
  all_goals try simp only [reduceCtorEq] at h
  all_goals
    rw [Except.ok.injEq, Prod.mk.injEq] at h
  all_goals
    obtain ⟨hc, hr⟩ := h
  all_goals
    subst hc
  all_goals
    simp only [not_not] at hmm
  all_goals
    exact ⟨rfl, hmm.symm⟩

/-- The bit predicate of the source agrees with Nat.testBit. -/
theorem bit_is_zero_iff_testBit (b : Nat) :
    ChunkType.bit_is_zero b 5 = true ↔ b.testBit 5 = false := by
  unfold ChunkType.bit_is_zero
  have h32 : (1 <<< 5) % 256 = 2 ^ 5 := by decide
  rw [h32, Nat.and_two_pow]
  cases h : b.testBit 5 <;> simp

/-- On a buffer of at least four bytes whose declared length exceeds the
bound, decoding stops with the length-too-long error, whatever follows. -/
theorem try_from_consume_too_long {b0 b1 b2 b3 : Nat} (rest : List Nat)
    (h : u32_from_be_bytes b0 b1 b2 b3 > MAXIMUM_LENGTH) :
    Chunk.try_from_consume (b0 :: b1 :: b2 :: b3 :: rest) =
      .error (.TooLong (u32_from_be_bytes b0 b1 b2 b3)) := by
  simp only [Chunk.try_from_consume]
  rw [if_pos h]

/-- Chunk decoding can never return the defensive data-length-mismatch
error: the exact read of the data segment always yields exactly the
declared number of bytes. -/
theorem try_from_consume_no_mismatch (bytes : List Nat) (a e : Nat) :
    Chunk.try_from_consume bytes ≠ .error (.LengthMismatch a e) := by
  intro h
  simp only [Chunk.try_from_consume] at h
  repeat split at h
  all_goals repeat split at h
  all_goals repeat split at h
  any_goals simp only [reduceCtorEq, Except.error.injEq] at h
  · rename_i hle hguard
    refine hguard ?_
    rw [List.length_take]
    omega
  · rename_i hle hguard
    rcases hdrop : List.drop (u32_from_be_bytes _ _ _ _) _ with
      _ | ⟨d0, _ | ⟨d1, _ | ⟨d2, _ | ⟨d3, r5⟩⟩⟩⟩ <;> rw [hdrop] at h
    all_goals try simp only [reduceCtorEq, Except.error.injEq] at h
    all_goals try split at h
    all_goals simp only [reduceCtorEq, Except.error.injEq] at h

/-- On a 4-byte string, from_str behaves exactly as the array
constructor. -/
theorem from_str_eq_try_from (a b c d : Nat) :
    ChunkType.from_str [a, b, c, d] = ChunkType.try_from ⟨a, b, c, d⟩ := rfl

/-- A 4-byte array that passes the byte scan yields a valid chunk type. -/
theorem valid_of_spec_none {b : Bytes4} (h : specFirstInvalidByte b = none) :
    (⟨b⟩ : ChunkType).IsValid := by
  by_cases h0 : ChunkType.is_valid_byte b.b0 <;>
    by_cases h1 : ChunkType.is_valid_byte b.b1 <;>
      by_cases h2 : ChunkType.is_valid_byte b.b2 <;>
        by_cases h3 : ChunkType.is_valid_byte b.b3 <;>
          simp [specFirstInvalidByte, h0, h1, h2, h3] at h ⊢ <;>
            exact ⟨h0, h1, h2, h3⟩

/-! Facts about single-bit flips. -/

theorem xor_shift_ne (a j : Nat) : a ^^^ (1 <<< j) ≠ a := by
  intro h
  have h2 : a ^^^ (a ^^^ (1 <<< j)) = a ^^^ a := congrArg (a ^^^ ·) h
  rw [Nat.xor_cancel_left, Nat.xor_self] at h2
  rw [Nat.shiftLeft_eq] at h2
  have hpos : 0 < 2 ^ j := Nat.pos_pow_of_pos j (by omega)
  omega

theorem xor_shift_lt {a j : Nat} (ha : a < 256) (hj : j < 8) :
    a ^^^ (1 <<< j) < 256 := by
  have h1 : (1 <<< j) < 2 ^ 8 := by
    rw [Nat.shiftLeft_eq, one_mul]
    exact Nat.pow_lt_pow_right (by omega) hj
  exact Nat.xor_lt_two_pow ha h1

theorem flipBitAt_append_right {l1 l2 : List Nat} {i : Nat}
    (h : l1.length ≤ i) (j : Nat) :
    flipBitAt (l1 ++ l2) i j = l1 ++ flipBitAt l2 (i - l1.length) j := by
  unfold flipBitAt
  rw [List.set_append_right _ _ h]
  congr 2
  rw [List.getD_eq_getElem?_getD, List.getD_eq_getElem?_getD,
    List.getElem?_append_right h]

theorem flipBitAt_append_left {l1 l2 : List Nat} {i : Nat}
    (h : i < l1.length) (j : Nat) :
    flipBitAt (l1 ++ l2) i j = flipBitAt l1 i j ++ l2 := by
  unfold flipBitAt
  rw [List.set_append_left _ _ h]
  congr 3
  rw [List.getD_eq_getElem?_getD, List.getD_eq_getElem?_getD,
    List.getElem?_append_left h]

theorem flipBitAt_cons_zero (x : Nat) (l : List Nat) (j : Nat) :
    flipBitAt (x :: l) 0 j = (x ^^^ 1 <<< j) :: l := rfl

theorem flipBitAt_cons_succ (x : Nat) (l : List Nat) (i j : Nat) :
    flipBitAt (x :: l) (i + 1) j = x :: flipBitAt l i j := rfl

theorem flipBitAt_length (l : List Nat) (i j : Nat) :
    (flipBitAt l i j).length = l.length := by
  unfold flipBitAt
  exact List.length_set l i _

theorem getD_append_right {l1 l2 : List Nat} {i : Nat} (h : l1.length ≤ i) :
    (l1 ++ l2).getD i 0 = l2.getD (i - l1.length) 0 := by
  rw [List.getD_eq_getElem?_getD, List.getD_eq_getElem?_getD,
    List.getElem?_append_right h]

/-- Flipping one bit of one byte of a byte stream changes its CRC-32/IEEE
checksum. -/
theorem checksum_ieee_flip_ne {m : List Nat} {p j : Nat} (hp : p < m.length)
    (hj : j < 8) (hm : ∀ x ∈ m, x < 256) :
    checksum_ieee (flipBitAt m p j) ≠ checksum_ieee m := by
  have hget : m.getD p 0 = m[p] := by
    rw [List.getD_eq_getElem?_getD, List.getElem?_eq_getElem hp]
    rfl
  have hmem : m[p] ∈ m := List.getElem_mem hp
  have hbyte : m.getD p 0 < 256 := by
    rw [hget]
    exact hm _ hmem
  have hdecomp : m = m.take p ++ m.getD p 0 :: m.drop (p + 1) := by
    rw [hget]
    conv_lhs => rw [← List.take_append_drop p m]
    congr 1
    exact (List.getElem_cons_drop m p hp).symm
  have hflip : flipBitAt m p j =
      m.take p ++ (m.getD p 0 ^^^ 1 <<< j) :: m.drop (p + 1) := by
    unfold flipBitAt
    exact List.set_eq_take_cons_drop _ hp
  rw [hflip]
  conv_rhs => rw [hdecomp]
  refine checksum_ieee_ne_of_byte_ne ?_ ?_ ?_ ?_ ?_
  · intro x hx
    exact lt_trans (hm x (List.take_subset p m hx)) (by norm_num)
  · intro x hx
    exact lt_trans (hm x (List.drop_subset (p + 1) m hx)) (by norm_num)
  · exact lt_trans (xor_shift_lt hbyte hj) (by norm_num)
  · exact lt_trans hbyte (by norm_num)
  · exact xor_shift_ne _ j

theorem u32_to_be_bytes_length (x : Nat) : (u32_to_be_bytes x).length = 4 :=
  rfl

theorem message_bytes_lt {t : ChunkType} {data : List Nat} (ht : t.IsValid)
    (hbytes : ∀ b ∈ data, b < 256) :
    ∀ x ∈ t.bytesList ++ data, x < 256 := by
  intro x hx
  rcases List.mem_append.mp hx with hx | hx
  · exact bytesList_lt_of_valid ht x hx
  · exact hbytes x hx

/-- The serialization of a freshly built chunk, grouped as an 8-byte header
followed by the data and the four crc digits. -/
theorem new_as_bytes_group (t : ChunkType) (data : List Nat)
    (hlen : data.length ≤ MAXIMUM_LENGTH) :
    (Chunk.new t data).as_bytes =
      (u32_to_be_bytes data.length ++
        [t.bytes.b0, t.bytes.b1, t.bytes.b2, t.bytes.b3]) ++
      (data ++ [checksum_ieee (t.bytesList ++ data) / 2 ^ 24 % 256,
        checksum_ieee (t.bytesList ++ data) / 2 ^ 16 % 256,
        checksum_ieee (t.bytesList ++ data) / 2 ^ 8 % 256,
        checksum_ieee (t.bytesList ++ data) % 256]) := by
  rw [Chunk.as_bytes_def, Chunk.new_length, Chunk.new_chunk_type,
    Chunk.new_chunk_data, Chunk.new_crc]
  rw [Nat.mod_eq_of_lt (by
    have h32 : MAXIMUM_LENGTH < 2 ^ 32 := by decide
    omega)]
  simp only [List.append_assoc]
  rfl

/-- Flipping a bit in the serialized crc field makes decoding fail with the
crc mismatch error. -/
theorem tamper_crc_region {t : ChunkType} {data : List Nat} (ht : t.IsValid)
    (hlen : data.length ≤ MAXIMUM_LENGTH) (hbytes : ∀ b ∈ data, b < 256)
    {k j : Nat} (hk : k < 4) (hj : j < 8) :
    isCrcMismatch (Chunk.try_from
      (flipBitAt (Chunk.new t data).as_bytes (8 + data.length + k) j)) =
      true := by
  have hmsg := message_bytes_lt ht hbytes
  have hClt : checksum_ieee (t.bytesList ++ data) < 2 ^ 32 :=
    checksum_ieee_lt _ (fun x hx => lt_trans (hmsg x hx) (by norm_num))
  rw [new_as_bytes_group t data hlen]
  have hlen8 : (u32_to_be_bytes data.length ++
      [t.bytes.b0, t.bytes.b1, t.bytes.b2, t.bytes.b3]).length = 8 := by
    simp [u32_to_be_bytes]
  rw [flipBitAt_append_right (by rw [hlen8]; omega) j, hlen8]
  rw [show 8 + data.length + k - 8 = data.length + k from by omega]
  rw [flipBitAt_append_right (by omega : data.length ≤ data.length + k) j]
  rw [show data.length + k - data.length = k from by omega]
  set C := checksum_ieee (t.bytesList ++ data) with hC
  have hcd : ∀ x, x % 256 < 256 := fun x => Nat.mod_lt _ (by omega)
  unfold Chunk.try_from
  have hbytesEq :
      checksum_ieee ([t.bytes.b0, t.bytes.b1, t.bytes.b2, t.bytes.b3] ++
        data) = C := hC.symm
  have hn32 : data.length < 2 ^ 32 := by
    have h32 : MAXIMUM_LENGTH < 2 ^ 32 := by decide
    omega
  interval_cases k <;>
    simp only [flipBitAt, List.getD_cons_zero, List.getD_cons_succ,
      List.set_cons_zero, List.set_cons_succ] <;>
    rw [List.append_assoc, List.cons_append, List.cons_append,
      List.cons_append, List.cons_append, List.nil_append,
      try_from_consume_layout hn32
        t.bytes.b0 t.bytes.b1 t.bytes.b2 t.bytes.b3 rfl] <;>
    rw [if_neg (by omega), specFirstInvalidByte_of_valid ht, hbytesEq] <;>
    rw [if_neg (by
      intro heq
      have hinj := u32_from_be_bytes_inj (by first
          | exact xor_shift_lt (hcd _) hj
          | exact hcd _)
        (by first | exact xor_shift_lt (hcd _) hj | exact hcd _)
        (by first | exact xor_shift_lt (hcd _) hj | exact hcd _)
        (by first | exact xor_shift_lt (hcd _) hj | exact hcd _)
        (hcd _) (hcd _) (hcd _) (hcd _)
        (heq.trans (u32_from_to_be hClt).symm)
      first
        | exact xor_shift_ne _ j hinj.1
        | exact xor_shift_ne _ j hinj.2.1
        | exact xor_shift_ne _ j hinj.2.2.1
        | exact xor_shift_ne _ j hinj.2.2.2)] <;>
    rfl

/-- Flipping a bit in a serialized data byte, with the crc field left
unchanged, makes decoding fail with the crc mismatch error. -/
theorem tamper_data_region {t : ChunkType} {data : List Nat} (ht : t.IsValid)
    (hlen : data.length ≤ MAXIMUM_LENGTH) (hbytes : ∀ b ∈ data, b < 256)
    {k j : Nat} (hk : k < data.length) (hj : j < 8) :
    isCrcMismatch (Chunk.try_from
      (flipBitAt (Chunk.new t data).as_bytes (8 + k) j)) = true := by
  have hmsg := message_bytes_lt ht hbytes
  have hClt : checksum_ieee (t.bytesList ++ data) < 2 ^ 32 :=
    checksum_ieee_lt _ (fun x hx => lt_trans (hmsg x hx) (by norm_num))
  rw [new_as_bytes_group t data hlen]
  have hlen8 : (u32_to_be_bytes data.length ++
      [t.bytes.b0, t.bytes.b1, t.bytes.b2, t.bytes.b3]).length = 8 := by
    simp [u32_to_be_bytes]
  rw [flipBitAt_append_right (by rw [hlen8]; omega) j, hlen8]
  rw [show 8 + k - 8 = k from by omega]
  rw [flipBitAt_append_left hk j]
  set C := checksum_ieee (t.bytesList ++ data) with hC
  have hn32 : data.length < 2 ^ 32 := by
    have h32 : MAXIMUM_LENGTH < 2 ^ 32 := by decide
    omega
  unfold Chunk.try_from
  rw [List.append_assoc, List.cons_append, List.cons_append,
    List.cons_append, List.cons_append, List.nil_append]
  rw [try_from_consume_layout hn32
    t.bytes.b0 t.bytes.b1 t.bytes.b2 t.bytes.b3 (flipBitAt_length data k j)]
  rw [if_neg (by omega : ¬data.length > MAXIMUM_LENGTH)]
  rw [specFirstInvalidByte_of_valid ht]
  rw [u32_from_to_be hClt]
  have hflipmsg : ([t.bytes.b0, t.bytes.b1, t.bytes.b2, t.bytes.b3] ++
      flipBitAt data k j) = flipBitAt (t.bytesList ++ data) (4 + k) j := by
    rw [flipBitAt_append_right
      (by simp [ChunkType.bytesList, Bytes4.toList] : (ChunkType.bytesList t).length ≤ 4 + k) j]
    rw [show 4 + k - (ChunkType.bytesList t).length = k from by
      simp [ChunkType.bytesList, Bytes4.toList]]
    rfl
  rw [if_neg (by
    rw [hflipmsg]
    intro heq
    exact (checksum_ieee_flip_ne
      (by simp [ChunkType.bytesList, Bytes4.toList]; omega) hj hmsg)
      (hC ▸ heq.symm))]
  rfl

/-- Flipping a bit in a serialized type byte (crc unchanged) makes decoding
fail: with the crc mismatch error when the flipped byte is still an ASCII
letter, and with the bad-byte error carrying the flipped byte otherwise. -/
theorem tamper_type_region {t : ChunkType} {data : List Nat} (ht : t.IsValid)
    (hlen : data.length ≤ MAXIMUM_LENGTH) (hbytes : ∀ b ∈ data, b < 256)
    {k j : Nat} (hk : k < 4) (hj : j < 8) :
    (ChunkType.is_valid_byte (t.bytesList.getD k 0 ^^^ 1 <<< j) = true →
      isCrcMismatch (Chunk.try_from
        (flipBitAt (Chunk.new t data).as_bytes (4 + k) j)) = true) ∧
    (ChunkType.is_valid_byte (t.bytesList.getD k 0 ^^^ 1 <<< j) = false →
      Chunk.try_from (flipBitAt (Chunk.new t data).as_bytes (4 + k) j) =
        .error (.BadChunkType (.BadByte (t.bytesList.getD k 0 ^^^ 1 <<< j)))) := by
  obtain ⟨hv0, hv1, hv2, hv3⟩ := ht
  have hmsg := message_bytes_lt ⟨hv0, hv1, hv2, hv3⟩ hbytes
  have hClt : checksum_ieee (t.bytesList ++ data) < 2 ^ 32 :=
    checksum_ieee_lt _ (fun x hx => lt_trans (hmsg x hx) (by norm_num))
  rw [new_as_bytes_group t data hlen]
  have hA4 : (u32_to_be_bytes data.length).length = 4 := rfl
  rw [flipBitAt_append_left (by
    rw [List.length_append, hA4]
    simp only [List.length_cons, List.length_nil]
    omega) j]
  rw [flipBitAt_append_right (by rw [hA4]; omega) j, hA4]
  rw [show 4 + k - 4 = k from by omega]
  set C := checksum_ieee (t.bytesList ++ data) with hC
  have hn32 : data.length < 2 ^ 32 := by
    have h32 : MAXIMUM_LENGTH < 2 ^ 32 := by decide
    omega
  unfold Chunk.try_from
  have hCdig : u32_from_be_bytes (C / 2 ^ 24 % 256) (C / 2 ^ 16 % 256)
      (C / 2 ^ 8 % 256) (C % 256) = C := u32_from_to_be hClt
  interval_cases k <;>
    simp only [flipBitAt, List.getD_cons_zero, List.getD_cons_succ,
      List.set_cons_zero, List.set_cons_succ, ChunkType.bytesList,
      Bytes4.toList] <;>
    rw [List.append_assoc, List.cons_append, List.cons_append,
      List.cons_append, List.cons_append, List.nil_append,
      try_from_consume_layout hn32 _ _ _ _ rfl, if_neg (by omega)] <;>
    constructor <;>
    intro hval
  · rw [show specFirstInvalidByte ⟨t.bytes.b0 ^^^ 1 <<< j, t.bytes.b1,
        t.bytes.b2, t.bytes.b3⟩ = none from by
      simp [specFirstInvalidByte, hval, hv1, hv2, hv3]]
    rw [hCdig]
    rw [if_neg (by
      rw [show ([t.bytes.b0 ^^^ 1 <<< j, t.bytes.b1, t.bytes.b2,
          t.bytes.b3] : List Nat) ++ data =
        flipBitAt (t.bytesList ++ data) 0 j from rfl]
      intro heq
      exact (checksum_ieee_flip_ne (by
          simp only [ChunkType.bytesList, Bytes4.toList, List.length_append,
            List.length_cons, List.length_nil]
          omega) hj hmsg) (hC ▸ heq.symm))]
    rfl
  · rw [show specFirstInvalidByte ⟨t.bytes.b0 ^^^ 1 <<< j, t.bytes.b1,
        t.bytes.b2, t.bytes.b3⟩ = some (t.bytes.b0 ^^^ 1 <<< j) from by
      simp [specFirstInvalidByte, hval]]
    rfl
  · rw [show specFirstInvalidByte ⟨t.bytes.b0, t.bytes.b1 ^^^ 1 <<< j,
        t.bytes.b2, t.bytes.b3⟩ = none from by
      simp [specFirstInvalidByte, hval, hv0, hv2, hv3]]
    rw [hCdig]
    rw [if_neg (by
      rw [show ([t.bytes.b0, t.bytes.b1 ^^^ 1 <<< j, t.bytes.b2,
          t.bytes.b3] : List Nat) ++ data =
        flipBitAt (t.bytesList ++ data) 1 j from rfl]
      intro heq
      exact (checksum_ieee_flip_ne (by
          simp only [ChunkType.bytesList, Bytes4.toList, List.length_append,
            List.length_cons, List.length_nil]
          omega) hj hmsg) (hC ▸ heq.symm))]
    rfl
  · rw [show specFirstInvalidByte ⟨t.bytes.b0, t.bytes.b1 ^^^ 1 <<< j,
        t.bytes.b2, t.bytes.b3⟩ = some (t.bytes.b1 ^^^ 1 <<< j) from by
      simp [specFirstInvalidByte, hval, hv0]]
    rfl
  · rw [show specFirstInvalidByte ⟨t.bytes.b0, t.bytes.b1,
        t.bytes.b2 ^^^ 1 <<< j, t.bytes.b3⟩ = none from by
      simp [specFirstInvalidByte, hval, hv0, hv1, hv3]]
    rw [hCdig]
    rw [if_neg (by
      rw [show ([t.bytes.b0, t.bytes.b1, t.bytes.b2 ^^^ 1 <<< j,
          t.bytes.b3] : List Nat) ++ data =
        flipBitAt (t.bytesList ++ data) 2 j from rfl]
      intro heq
      exact (checksum_ieee_flip_ne (by
          simp only [ChunkType.bytesList, Bytes4.toList, List.length_append,
            List.length_cons, List.length_nil]
          omega) hj hmsg) (hC ▸ heq.symm))]
    rfl
  · rw [show specFirstInvalidByte ⟨t.bytes.b0, t.bytes.b1,
        t.bytes.b2 ^^^ 1 <<< j, t.bytes.b3⟩ = some (t.bytes.b2 ^^^ 1 <<< j)
        from by
      simp [specFirstInvalidByte, hval, hv0, hv1]]
    rfl
  · rw [show specFirstInvalidByte ⟨t.bytes.b0, t.bytes.b1, t.bytes.b2,
        t.bytes.b3 ^^^ 1 <<< j⟩ = none from by
      simp [specFirstInvalidByte, hval, hv0, hv1, hv2]]
    rw [hCdig]
    rw [if_neg (by
      rw [show ([t.bytes.b0, t.bytes.b1, t.bytes.b2,
          t.bytes.b3 ^^^ 1 <<< j] : List Nat) ++ data =
        flipBitAt (t.bytesList ++ data) 3 j from rfl]
      intro heq
      exact (checksum_ieee_flip_ne (by
          simp only [ChunkType.bytesList, Bytes4.toList, List.length_append,
            List.length_cons, List.length_nil]
          omega) hj hmsg) (hC ▸ heq.symm))]
    rfl
  · rw [show specFirstInvalidByte ⟨t.bytes.b0, t.bytes.b1, t.bytes.b2,
        t.bytes.b3 ^^^ 1 <<< j⟩ = some (t.bytes.b3 ^^^ 1 <<< j) from by
      simp [specFirstInvalidByte, hval, hv0, hv1, hv2]]
    rfl

/-! Claim theorems. -/

/-- C1, counterexample to the claim as stated: a chunk built via Chunk::new
from data of 2^31 bytes serializes with a declared length of 2^31, which
the decoder rejects with the length-too-long error, so decode of encode
does not succeed for every Chunk::new result. -/
theorem claim_C1_cex :
    Chunk.try_from
        (Chunk.new ⟨⟨82, 117, 83, 116⟩⟩ (List.replicate (2 ^ 31) 0)).as_bytes =
      .error (.TooLong (2 ^ 31)) := by
  set c := Chunk.new ⟨⟨82, 117, 83, 116⟩⟩ (List.replicate (2 ^ 31) 0) with hc
  have hlen : c.length = 2 ^ 31 := by
    rw [hc, Chunk.new_length, List.length_replicate]
    omega
  have hbuf : c.as_bytes = u32_to_be_bytes (2 ^ 31) ++ 82 :: 117 :: 83 :: 116 ::
      (List.replicate (2 ^ 31) 0 ++ c.crc / 2 ^ 24 % 256 ::
        c.crc / 2 ^ 16 % 256 :: c.crc / 2 ^ 8 % 256 :: c.crc % 256 :: []) := by
    have h1 : c.chunk_type.bytesList = [82, 117, 83, 116] := by
      rw [hc, Chunk.new_chunk_type]
      rfl
    have h2 : c.chunk_data = List.replicate (2 ^ 31) 0 := by
      rw [hc, Chunk.new_chunk_data]
    have h3 : u32_to_be_bytes c.crc = [c.crc / 2 ^ 24 % 256,
        c.crc / 2 ^ 16 % 256, c.crc / 2 ^ 8 % 256, c.crc % 256] := rfl
    rw [Chunk.as_bytes_def, hlen, h1, h2, h3]
    simp only [List.append_assoc, List.cons_append, List.nil_append]
  unfold Chunk.try_from
  rw [hbuf, try_from_consume_layout (by norm_num) 82 117 83 116
    (List.length_replicate (2 ^ 31) 0)]
  rw [if_pos (by decide : 2 ^ 31 > MAXIMUM_LENGTH)]
  rfl

/-- C1 (amended): for every Chunk built via Chunk::new from a validly
constructed ChunkType and a byte vector of at most 2^31 - 1 bytes, decoding
the buffer produced by as_bytes succeeds and yields the chunk back
field-for-field. -/
theorem claim_C1 (t : ChunkType) (data : List Nat) (ht : t.IsValid)
    (hlen : data.length ≤ MAXIMUM_LENGTH) (hbytes : ∀ b ∈ data, b < 256) :
    Chunk.try_from (Chunk.new t data).as_bytes = .ok (Chunk.new t data) := by
  have hwf : (Chunk.new t data).WellFormed := by
    refine ⟨?_, hlen, rfl, ht, hbytes⟩
    have hm : MAXIMUM_LENGTH < 2 ^ 32 := by decide
    simp only [Chunk.new]
    omega
  unfold Chunk.try_from
  rw [← List.append_nil ((Chunk.new t data).as_bytes),
    try_from_consume_as_bytes hwf []]
  rfl

/-- C1 witness. -/
theorem claim_C1_witness :
    Chunk.try_from (Chunk.new ⟨⟨82, 117, 83, 116⟩⟩ [1, 2, 3]).as_bytes =
      .ok (Chunk.new ⟨⟨82, 117, 83, 116⟩⟩ [1, 2, 3]) :=
  claim_C1 ⟨⟨82, 117, 83, 116⟩⟩ [1, 2, 3] (by decide) (by decide) (by decide)

/-- C2: a Png built from the signature plus any finite sequence of
well-formed chunks decodes from its own encoding to the same chunk
sequence, element for element, in the same order. The Png container is
modelled from the spec because src/png.rs is missing from the source
tree. -/
theorem claim_C2 (cs : List Chunk) (h : ∀ c ∈ cs, c.WellFormed) :
    Png.try_from (Png.as_bytes ⟨cs⟩) = .ok ⟨cs⟩ := by
  unfold Png.try_from Png.as_bytes
  have h8 : PNG_SIGNATURE.length = 8 := rfl
  rw [List.take_left' h8, List.drop_left' h8, if_pos rfl]
  rw [decodeChunks_encode cs h _ (flatten_as_bytes_length cs)]

set_option maxRecDepth 100000 in
/-- C2 witness. -/
theorem claim_C2_witness :
    Png.try_from (Png.as_bytes ⟨[Chunk.new ⟨⟨114, 117, 83, 116⟩⟩ [104, 105]]⟩) =
      .ok ⟨[Chunk.new ⟨⟨114, 117, 83, 116⟩⟩ [104, 105]]⟩ :=
  claim_C2 [Chunk.new ⟨⟨114, 117, 83, 116⟩⟩ [104, 105]] (by decide)

/-- C4, counterexample to the claim as stated: Chunk::new truncates the
stored length to u32, so a chunk built from 2^32 data bytes has length 0,
not 2^32. -/
theorem claim_C4_cex :
    (Chunk.new ⟨⟨82, 117, 83, 116⟩⟩ (List.replicate (2 ^ 32) 0)).length ≠
      (List.replicate (2 ^ 32) 0).length := by
  rw [Chunk.new_length, List.length_replicate]
  omega

/-- C4 (amended): every Chunk observable through the public interface
satisfies the crc invariant (crc equals the checksum over type bytes and
data); decoded chunks also satisfy length = data length exactly, while
chunks built by Chunk::new store the data length reduced modulo 2^32,
which equals the exact data length whenever the data holds fewer than 2^32
bytes. -/
theorem claim_C4 (t : ChunkType) (data : List Nat) (bytes : List Nat)
    (c : Chunk) :
    ((Chunk.new t data).crc = checksum_ieee
        ((Chunk.new t data).chunk_type.bytesList ++
          (Chunk.new t data).chunk_data) ∧
      (Chunk.new t data).length = data.length % 2 ^ 32 ∧
      (data.length < 2 ^ 32 → (Chunk.new t data).length = data.length)) ∧
    (Chunk.try_from bytes = .ok c →
      c.crc = checksum_ieee (c.chunk_type.bytesList ++ c.chunk_data) ∧
      c.length = c.chunk_data.length) := by
  constructor
  · refine ⟨rfl, rfl, ?_⟩
    intro h
    rw [Chunk.new_length]
    omega
  · intro h
    unfold Chunk.try_from at h
    rcases hcons : Chunk.try_from_consume bytes with e | p
    · rw [hcons] at h
      simp [Except.map] at h
    · rw [hcons] at h
      simp only [Except.map, Except.ok.injEq] at h
      obtain ⟨c2, r⟩ := p
      simp only at h
      subst h
      exact try_from_consume_wf hcons

set_option maxRecDepth 100000 in
/-- C4 witness. -/
theorem claim_C4_witness :
    (Chunk.new ⟨⟨82, 117, 83, 116⟩⟩ [7]).length = ([7] : List Nat).length ∧
    (Chunk.new ⟨⟨82, 117, 83, 116⟩⟩ [7]).crc =
      checksum_ieee ((Chunk.new ⟨⟨82, 117, 83, 116⟩⟩ [7]).chunk_type.bytesList ++
        (Chunk.new ⟨⟨82, 117, 83, 116⟩⟩ [7]).chunk_data) :=
  ⟨(claim_C4 ⟨⟨82, 117, 83, 116⟩⟩ [7]
      (Chunk.new ⟨⟨82, 117, 83, 116⟩⟩ [7]).as_bytes
      (Chunk.new ⟨⟨82, 117, 83, 116⟩⟩ [7])).1.2.2 (by decide),
   ((claim_C4 ⟨⟨82, 117, 83, 116⟩⟩ [7]
      (Chunk.new ⟨⟨82, 117, 83, 116⟩⟩ [7]).as_bytes
      (Chunk.new ⟨⟨82, 117, 83, 116⟩⟩ [7])).2 (by decide)).1⟩

/-- C5: decoding rejects any buffer whose 4-byte big-endian declared length
exceeds 2^31 - 1 with the length-too-long error (in particular a declared
length of 2^31), and accepts a declared length of exactly 2^31 - 1 when the
buffer continues with a valid type, that many data bytes, and the matching
crc. -/
theorem claim_C5 (n : Nat) (hn : n < 2 ^ 32) (hgt : n > MAXIMUM_LENGTH)
    (rest : List Nat) (t : ChunkType) (ht : t.IsValid) (data : List Nat)
    (hd : data.length = MAXIMUM_LENGTH) (hdb : ∀ b ∈ data, b < 256) :
    Chunk.try_from (u32_to_be_bytes n ++ rest) = .error (.TooLong n) ∧
    Chunk.try_from (u32_to_be_bytes MAXIMUM_LENGTH ++ t.bytesList ++ data ++
        u32_to_be_bytes (checksum_ieee (t.bytesList ++ data))) =
      .ok { length := MAXIMUM_LENGTH, chunk_type := t, chunk_data := data,
            crc := checksum_ieee (t.bytesList ++ data) } := by
  constructor
  · unfold Chunk.try_from
    simp only [u32_to_be_bytes, List.cons_append, List.nil_append]
    rw [try_from_consume_too_long rest (by rw [u32_from_to_be hn]; exact hgt)]
    rw [u32_from_to_be hn]
    rfl
  · have hwf : Chunk.WellFormed ⟨MAXIMUM_LENGTH, t, data,
        checksum_ieee (t.bytesList ++ data)⟩ :=
      ⟨hd.symm, le_of_eq hd, rfl, ht, hdb⟩
    unfold Chunk.try_from
    rw [← List.append_nil (u32_to_be_bytes MAXIMUM_LENGTH ++ t.bytesList ++
      data ++ u32_to_be_bytes (checksum_ieee (t.bytesList ++ data)))]
    rw [show (u32_to_be_bytes MAXIMUM_LENGTH ++ t.bytesList ++ data ++
      u32_to_be_bytes (checksum_ieee (t.bytesList ++ data))) =
      (⟨MAXIMUM_LENGTH, t, data,
        checksum_ieee (t.bytesList ++ data)⟩ : Chunk).as_bytes from rfl]
    rw [try_from_consume_as_bytes hwf []]
    rfl

/-- C5 witness. -/
theorem claim_C5_witness :
    Chunk.try_from (u32_to_be_bytes (2 ^ 31) ++ []) =
      .error (.TooLong (2 ^ 31)) ∧
    Chunk.try_from (u32_to_be_bytes MAXIMUM_LENGTH ++
        (⟨⟨82, 117, 83, 116⟩⟩ : ChunkType).bytesList ++
        List.replicate MAXIMUM_LENGTH 0 ++
        u32_to_be_bytes (checksum_ieee
          ((⟨⟨82, 117, 83, 116⟩⟩ : ChunkType).bytesList ++
            List.replicate MAXIMUM_LENGTH 0))) =
      .ok { length := MAXIMUM_LENGTH, chunk_type := ⟨⟨82, 117, 83, 116⟩⟩,
            chunk_data := List.replicate MAXIMUM_LENGTH 0,
            crc := checksum_ieee
              ((⟨⟨82, 117, 83, 116⟩⟩ : ChunkType).bytesList ++
                List.replicate MAXIMUM_LENGTH 0) } :=
  claim_C5 (2 ^ 31) (by decide) (by decide) [] ⟨⟨82, 117, 83, 116⟩⟩
    (by decide) (List.replicate MAXIMUM_LENGTH 0) (List.length_replicate _ _)
    (fun b hb => by rw [List.eq_of_mem_replicate hb]; decide)

/-- C6: for every input buffer, chunk decoding never returns the
data-length-mismatch error; the defensive guard is unreachable. -/
theorem claim_C6 (bytes : List Nat) :
    isLengthMismatch (Chunk.try_from bytes) = false := by
  unfold Chunk.try_from
  rcases h : Chunk.try_from_consume bytes with e | p
  · cases e with
    | LengthMismatch x y => exact absurd h (try_from_consume_no_mismatch bytes x y)
    | BufferTooShort => rfl
    | TooLong l => rfl
    | BadChunkType e2 => rfl
    | BadCrc r2 e2 => rfl
  · rfl

/-- C7: constructing a ChunkType from a 4-byte array succeeds exactly when
all four bytes are ASCII letters, in which case bytes() returns the input
unchanged; otherwise it fails with the byte-level error carrying the first
byte, in index order, outside the letter ranges. -/
theorem claim_C7 (b : Bytes4) :
    ChunkType.try_from b =
      (match specFirstInvalidByte b with
       | some x => Except.error (ChunkTypeDecodingError.BadByte x)
       | none => Except.ok ⟨b⟩) ∧
    ∀ t, ChunkType.try_from b = .ok t → t.bytes = b := by
  refine ⟨chunkType_try_from_eq_spec b, ?_⟩
  intro t ht
  rw [chunkType_try_from_eq_spec b] at ht
  rcases hs : specFirstInvalidByte b with _ | x <;> rw [hs] at ht
  · simp only [Except.ok.injEq] at ht
    subst ht
    rfl
  · simp at ht

/-- C7 witness. -/
theorem claim_C7_witness :
    (⟨⟨82, 117, 83, 116⟩⟩ : ChunkType).bytes = ⟨82, 117, 83, 116⟩ :=
  (claim_C7 ⟨82, 117, 83, 116⟩).2 ⟨⟨82, 117, 83, 116⟩⟩ (by decide)

/-- C8: constructing a ChunkType from a string (as its byte list) fails
with the bad-length error carrying the received size exactly when the
string is not 4 bytes long; on a 4-byte string with a byte outside the
letter ranges it fails with the bad-byte error carrying the first offending
byte; otherwise it succeeds and rendering the ChunkType back to a string
returns the input unchanged. -/
theorem claim_C8 (s : List Nat) :
    (s.length ≠ 4 → ChunkType.from_str s = .error (.BadLength s.length)) ∧
    (∀ a b c d, s = [a, b, c, d] →
      ChunkType.from_str s =
        (match specFirstInvalidByte ⟨a, b, c, d⟩ with
         | some x => Except.error (ChunkTypeDecodingError.BadByte x)
         | none => Except.ok ⟨⟨a, b, c, d⟩⟩)) ∧
    (∀ t, ChunkType.from_str s = .ok t → ChunkType.to_string t = s) := by
  rcases s with _ | ⟨a, _ | ⟨b, _ | ⟨c, _ | ⟨d, _ | ⟨e, tl⟩⟩⟩⟩⟩
  · exact ⟨fun _ => rfl, fun a b c d h => by simp at h, fun t h => by simp [ChunkType.from_str] at h⟩
  · exact ⟨fun _ => rfl, fun a2 b2 c2 d2 h => by simp at h, fun t h => by simp [ChunkType.from_str] at h⟩
  · exact ⟨fun _ => rfl, fun a2 b2 c2 d2 h => by simp at h, fun t h => by simp [ChunkType.from_str] at h⟩
  · exact ⟨fun _ => rfl, fun a2 b2 c2 d2 h => by simp at h, fun t h => by simp [ChunkType.from_str] at h⟩
  · refine ⟨fun h4 => absurd (by simp : ([a, b, c, d] : List Nat).length = 4) h4, ?_, ?_⟩
    · intro a2 b2 c2 d2 heq
      simp only [List.cons.injEq, and_true] at heq
      obtain ⟨rfl, rfl, rfl, rfl⟩ := heq
      rw [from_str_eq_try_from, chunkType_try_from_eq_spec]
    · intro t ht
      rw [from_str_eq_try_from, chunkType_try_from_eq_spec] at ht
      rcases hs : specFirstInvalidByte ⟨a, b, c, d⟩ with _ | x <;>
        rw [hs] at ht
      · simp only [Except.ok.injEq] at ht
        subst ht
        rw [to_string_of_valid (valid_of_spec_none hs)]
        rfl
      · simp at ht
  · refine ⟨fun _ => rfl, ?_, ?_⟩
    · intro a2 b2 c2 d2 heq
      simp at heq
    · intro t ht
      have hr : ChunkType.from_str (a :: b :: c :: d :: e :: tl) =
          .error (.BadLength (a :: b :: c :: d :: e :: tl).length) := rfl
      rw [hr] at ht
      simp at ht

/-- C8 witness. -/
theorem claim_C8_witness :
    ChunkType.from_str [1, 2, 3] = .error (.BadLength 3) ∧
    ChunkType.to_string ⟨⟨82, 117, 83, 116⟩⟩ = [82, 117, 83, 116] := by
  constructor
  · exact (claim_C8 [1, 2, 3]).1 (by decide)
  · exact (claim_C8 [82, 117, 83, 116]).2.2 ⟨⟨82, 117, 83, 116⟩⟩ (by decide)

/-- C9: the four flag predicates read exactly bit 5 (0-indexed from the
least significant bit) of the respective byte: critical and public and
reserved-bit-valid hold when the bit is zero, safe-to-copy when it is one;
and the fixtures RuSt, Rust and ruSt behave as stated. -/
theorem claim_C9 (t : ChunkType) :
    (t.is_critical = true ↔ t.bytes.b0.testBit 5 = false) ∧
    (t.is_public = true ↔ t.bytes.b1.testBit 5 = false) ∧
    (t.is_reserved_bit_valid = true ↔ t.bytes.b2.testBit 5 = false) ∧
    (t.is_safe_to_copy = true ↔ t.bytes.b3.testBit 5 = true) ∧
    ((⟨⟨82, 117, 83, 116⟩⟩ : ChunkType).is_critical = true ∧
      (⟨⟨82, 117, 83, 116⟩⟩ : ChunkType).is_public = false ∧
      (⟨⟨82, 117, 83, 116⟩⟩ : ChunkType).is_reserved_bit_valid = true ∧
      (⟨⟨82, 117, 83, 116⟩⟩ : ChunkType).is_safe_to_copy = true) ∧
    (⟨⟨82, 117, 115, 116⟩⟩ : ChunkType).is_reserved_bit_valid = false ∧
    (⟨⟨114, 117, 83, 116⟩⟩ : ChunkType).is_critical = false := by
  refine ⟨bit_is_zero_iff_testBit t.bytes.b0, bit_is_zero_iff_testBit t.bytes.b1,
    bit_is_zero_iff_testBit t.bytes.b2, ?_, by decide, by decide, by decide⟩
  have hb := bit_is_zero_iff_testBit t.bytes.b3
  unfold ChunkType.is_safe_to_copy
  cases hz : ChunkType.bit_is_zero t.bytes.b3 5 <;>
    cases hx : t.bytes.b3.testBit 5 <;> simp_all

/-- C10: Chunk::new performs no bound check: it always constructs a chunk
holding the given data, whose stored length is the data byte count reduced
modulo 2^32 (the as-u32 cast), so the length field equals the true data
length exactly when the data holds fewer than 2^32 bytes; in particular
data of 2^31 bytes is accepted with stored length 2^31. -/
theorem claim_C10 (t : ChunkType) (data : List Nat) :
    (Chunk.new t data).length = data.length % 2 ^ 32 ∧
    (Chunk.new t data).chunk_data = data ∧
    ((Chunk.new t data).length = data.length ↔ data.length < 2 ^ 32) ∧
    (Chunk.new ⟨⟨82, 117, 83, 116⟩⟩ (List.replicate (2 ^ 31) 0)).length =
      2 ^ 31 := by
  refine ⟨rfl, rfl, ?_, ?_⟩
  · rw [Chunk.new_length]
    constructor
    · intro h
      omega
    · intro h
      omega
  · rw [Chunk.new_length, List.length_replicate]
    omega

set_option maxRecDepth 100000 in
/-- C3, counterexample to the claim as stated: flipping bit 7 of the first
type byte of a serialized chunk (type RuSt, empty data, crc unchanged)
turns the byte 82 into 210, which is not an ASCII letter, so decoding fails
with the bad-byte chunk-type error rather than with CrcMismatch. -/
theorem claim_C3_cex :
    isCrcMismatch (Chunk.try_from
      (flipBitAt (Chunk.new ⟨⟨82, 117, 83, 116⟩⟩ []).as_bytes 4 7)) = false ∧
    Chunk.try_from
        (flipBitAt (Chunk.new ⟨⟨82, 117, 83, 116⟩⟩ []).as_bytes 4 7) =
      .error (.BadChunkType (.BadByte 210)) := by
  constructor
  · decide
  · decide

/-- C3 (amended): for every chunk built via Chunk::new from a valid type
and byte data within the length bound, and every single-bit flip of its
serialized bytes: a flip inside the crc field, or inside the data bytes
with the crc left unchanged, makes decoding fail with the crc mismatch
error; a flip inside the type bytes (crc unchanged) makes decoding fail
with the crc mismatch error when the flipped byte is still an ASCII letter,
and with the bad-byte chunk-type error carrying the flipped byte
otherwise. -/
theorem claim_C3 (t : ChunkType) (data : List Nat) (ht : t.IsValid)
    (hlen : data.length ≤ MAXIMUM_LENGTH) (hbytes : ∀ b ∈ data, b < 256)
    (i j : Nat) (hj : j < 8) :
    (8 + data.length ≤ i → i < 12 + data.length →
      isCrcMismatch (Chunk.try_from
        (flipBitAt (Chunk.new t data).as_bytes i j)) = true) ∧
    (8 ≤ i → i < 8 + data.length →
      isCrcMismatch (Chunk.try_from
        (flipBitAt (Chunk.new t data).as_bytes i j)) = true) ∧
    (4 ≤ i → i < 8 →
      (ChunkType.is_valid_byte (t.bytesList.getD (i - 4) 0 ^^^ 1 <<< j) =
          true →
        isCrcMismatch (Chunk.try_from
          (flipBitAt (Chunk.new t data).as_bytes i j)) = true) ∧
      (ChunkType.is_valid_byte (t.bytesList.getD (i - 4) 0 ^^^ 1 <<< j) =
          false →
        Chunk.try_from (flipBitAt (Chunk.new t data).as_bytes i j) =
          .error (.BadChunkType
            (.BadByte (t.bytesList.getD (i - 4) 0 ^^^ 1 <<< j))))) := by
  refine ⟨?_, ?_, ?_⟩
  · intro h1 h2
    obtain ⟨k, hk, rfl⟩ : ∃ k, k < 4 ∧ i = 8 + data.length + k :=
      ⟨i - (8 + data.length), by omega, by omega⟩
    exact tamper_crc_region ht hlen hbytes hk hj
  · intro h1 h2
    obtain ⟨k, hk, rfl⟩ : ∃ k, k < data.length ∧ i = 8 + k :=
      ⟨i - 8, by omega, by omega⟩
    exact tamper_data_region ht hlen hbytes hk hj
  · intro h1 h2
    obtain ⟨k, hk, rfl⟩ : ∃ k, k < 4 ∧ i = 4 + k :=
      ⟨i - 4, by omega, by omega⟩
    rw [show 4 + k - 4 = k from by omega]
    exact tamper_type_region ht hlen hbytes hk hj

set_option maxRecDepth 100000 in
/-- C3 witness. -/
theorem claim_C3_witness :
    isCrcMismatch (Chunk.try_from
      (flipBitAt (Chunk.new ⟨⟨82, 117, 83, 116⟩⟩ [65]).as_bytes 9 0)) =
      true :=
  (claim_C3 ⟨⟨82, 117, 83, 116⟩⟩ [65] (by decide) (by decide) (by decide)
    9 0 (by decide)).1 (by decide) (by decide)

end Pngme
